import Mathlib

/-!
Verification of the Tally XML codec of this repository
(`tally_service.py` and `tally_backend_service.py`).

Modelling conventions:
* Python floats are modelled as exact rationals (ℚ); `round(x, 2)` with the
  code's explicit epsilon bias is modelled as `⌊100·x + ε + 1/2⌋ / 100`.
* Python dicts used as accumulators are modelled as insertion-ordered
  association lists.
* Strings are Lean `String`s; Python `str.replace` on single characters,
  `str.split`, and the regexes of the source are modelled as executable
  character-list functions.
-/

namespace BackendAi

/-- Generic 2-decimal rounding with an epsilon bias, where `e` is the bias
already scaled by 100.  `tally_service.round_val` and
`TallyBackendService.round_amount` are both instances of this. -/
def round2 (e : ℚ) (q : ℚ) : ℚ := (Int.floor (q * 100 + e + 1/2) : ℚ) / 100

/-- `tally_service.round_val`: `round(float(num) + 1e-10, 2)`
(bias 1e-10, scaled by 100: `1/10^8`). -/
def roundVal (q : ℚ) : ℚ := round2 (1/100000000) q

/-- `TallyBackendService.round_amount`: `round((amount + 1e-9) * 100) / 100`
(bias 1e-9, scaled by 100: `1/10^7`). -/
def roundAmount (q : ℚ) : ℚ := round2 (1/10000000) q

/-- A rational that is an exact 2-decimal value. -/
def is2dp (q : ℚ) : Prop := ∃ k : ℤ, q = (k : ℚ) / 100

theorem is2dp_round2 (e q : ℚ) : is2dp (round2 e q) := ⟨_, rfl⟩

theorem is2dp_zero : is2dp 0 := ⟨0, by norm_num⟩

theorem is2dp_add {a b : ℚ} (ha : is2dp a) (hb : is2dp b) : is2dp (a + b) := by
  obtain ⟨k, hk⟩ := ha
  obtain ⟨m, hm⟩ := hb
  exact ⟨k + m, by push_cast [hk, hm]; ring⟩

theorem is2dp_neg {a : ℚ} (ha : is2dp a) : is2dp (-a) := by
  obtain ⟨k, hk⟩ := ha
  exact ⟨-k, by push_cast [hk]; ring⟩

/-- Rounding is the identity on exact 2-decimal values (the bias is far
below the rounding threshold). -/
theorem round2_eq_self {e q : ℚ} (he : 0 ≤ e) (he2 : e < 1/2) (h : is2dp q) :
    round2 e q = q := by
  obtain ⟨k, hk⟩ := h
  subst hk
  have h100 : ((k : ℚ) / 100) * 100 = (k : ℚ) := by field_simp
  have hfl : Int.floor (((k : ℚ) / 100) * 100 + e + 1/2) = k := by
    rw [h100]
    have : (k : ℚ) + e + 1/2 = (e + 1/2) + (k : ℚ) := by ring
    rw [this, Int.floor_add_int]
    have : Int.floor (e + 1/2) = 0 := by
      rw [Int.floor_eq_zero_iff]
      constructor
      · linarith
      · simpa using by linarith
    omega
  rw [round2, hfl]

/-- Rounding commutes with adding an exact 2-decimal value. -/
theorem round2_add_2dp {e q g : ℚ} (hg : is2dp g) :
    round2 e (q + g) = round2 e q + g := by
  obtain ⟨k, hk⟩ := hg
  subst hk
  have harg : (q + (k : ℚ) / 100) * 100 + e + 1/2 = (q * 100 + e + 1/2) + (k : ℚ) := by
    field_simp
    ring
  rw [round2, harg, Int.floor_add_int, round2]
  push_cast
  ring

theorem round2_nonneg {e q : ℚ} (he : 0 ≤ e) (hq : 0 ≤ q) : 0 ≤ round2 e q := by
  have h : (0 : ℤ) ≤ Int.floor (q * 100 + e + 1/2) := by
    rw [Int.le_floor]
    push_cast
    linarith
  rw [round2]
  have h' : (0 : ℚ) ≤ (Int.floor (q * 100 + e + 1/2) : ℚ) := by exact_mod_cast h
  linarith

/-- The "remainder by subtraction" of halving a nonnegative 2-decimal value
is nonnegative: `0 ≤ q - round2 e (q/2)`. -/
theorem round2_half_le {e q : ℚ} (he : 0 ≤ e) (he2 : e < 1/2) (hq : 0 ≤ q)
    (h : is2dp q) : round2 e (q / 2) ≤ q := by
  obtain ⟨k, hk⟩ := h
  subst hk
  have hk0 : (0 : ℤ) ≤ k := by
    by_contra hneg
    push_neg at hneg
    have : ((k : ℚ) / 100) < 0 := by
      have : (k : ℚ) < 0 := by exact_mod_cast hneg
      linarith
    linarith
  have harg : ((k : ℚ) / 100) / 2 * 100 + e + 1/2 = (k : ℚ) / 2 + e + 1/2 := by ring
  have hfl : Int.floor (((k : ℚ) / 100) / 2 * 100 + e + 1/2) ≤ k := by
    rw [harg, Int.floor_le_iff]
    have : (k : ℚ) / 2 ≤ k := by
      have : (0 : ℚ) ≤ k := by exact_mod_cast hk0
      linarith
    linarith
  rw [round2]
  have h' : (Int.floor (((k : ℚ) / 100) / 2 * 100 + e + 1/2) : ℚ) ≤ (k : ℚ) := by
    exact_mod_cast hfl
  linarith

/-- C3 core fact: with the encoder's epsilon-biased rounding, the CGST half
plus the subtraction remainder exactly reproduce the rounded tax. -/
theorem split_sum (T : ℚ) :
    roundVal (T / 2) + roundVal (T - roundVal (T / 2)) = roundVal T := by
  have hg : is2dp (-(roundVal (T / 2))) := is2dp_neg (is2dp_round2 _ _)
  have h := round2_add_2dp (e := 1/100000000) (q := T) hg
  simp only [roundVal] at h ⊢
  have hsub : T - round2 (1/100000000) (T / 2) = T + -(round2 (1/100000000) (T / 2)) := by
    ring
  rw [hsub, h]
  ring

/-! ### Rate formatting and ledger names (`tally_service.format_rate`,
`TallyBackendService._format_rate`, and the f-string name templates). -/

/-- `format_rate`: an integral rate prints without a decimal point
(`str(int(f))`); otherwise `f"{f:.1f}"` (one decimal digit, modelled with
round-half-up on exact rationals) with trailing `0` and `.` stripped. -/
def formatRate (r : ℚ) : String :=
  if r.den = 1 then toString r.num
  else
    let t : ℤ := Int.floor (r * 10 + 1/2)
    if t % 10 = 0 then toString (t / 10)
    else toString (t / 10) ++ "." ++ toString (t % 10)

/-- Purchase-bucket ledger name `f"PURCHASE @{rate_str}"` where `rate_str`
renders the rate (an integral rate without decimal point).  For non-integral
rates the source prints the Python float repr; `formatRate` is the exact
stand-in for the one-decimal rates that occur (e.g. `2.5`). -/
def purchaseName (r : ℚ) : String := "PURCHASE @" ++ formatRate r ++ "%"

/-- `f"Input IGST {format_rate(rate)}%"`. -/
def igstName (r : ℚ) : String := "Input IGST " ++ formatRate r ++ "%"

/-- `f"Input CGST@{format_rate(half_rate)}%"`. -/
def cgstName (h : ℚ) : String := "Input CGST@" ++ formatRate h ++ "%"

/-- `f"Input SGST@{format_rate(half_rate)}%"`. -/
def sgstName (h : ℚ) : String := "Input SGST@" ++ formatRate h ++ "%"

/-! ### Python dict accumulators as insertion-ordered association lists. -/

/-- `d[k] = d.get(k, 0) + v` on an insertion-ordered dict. -/
def addTo (k : String) (v : ℚ) : List (String × ℚ) → List (String × ℚ)
  | [] => [(k, v)]
  | p :: rest => if p.1 = k then (p.1, p.2 + v) :: rest else p :: addTo k v rest

/-- Fold a list of `(key, value)` contributions into a dict. -/
def accAll (contribs : List (String × ℚ)) (acc : List (String × ℚ)) :
    List (String × ℚ) :=
  contribs.foldl (fun a p => addTo p.1 p.2 a) acc

/-- `sum(d.values())`. -/
def sumVals (l : List (String × ℚ)) : ℚ := (l.map Prod.snd).sum

theorem sumVals_addTo (k : String) (v : ℚ) (l : List (String × ℚ)) :
    sumVals (addTo k v l) = sumVals l + v := by
  induction l with
  | nil => simp [addTo, sumVals]
  | cons p rest ih =>
    by_cases h : p.1 = k
    · simp [addTo, h, sumVals]
      ring
    · simp [addTo, h, sumVals] at ih ⊢
      linarith

theorem sumVals_accAll (contribs : List (String × ℚ)) :
    ∀ acc, sumVals (accAll contribs acc) =
      sumVals acc + (contribs.map Prod.snd).sum := by
  induction contribs with
  | nil => intro acc; simp [accAll, sumVals]
  | cons p rest ih =>
    intro acc
    simp only [accAll, List.foldl_cons] at ih ⊢
    rw [ih, sumVals_addTo]
    simp
    ring

theorem addTo_pred {P : ℚ → Prop} (hP : ∀ a b, P a → P b → P (a + b))
    (k : String) (v : ℚ) (hv : P v) :
    ∀ l : List (String × ℚ), (∀ p ∈ l, P p.2) →
      ∀ p ∈ addTo k v l, P p.2 := by
  intro l
  induction l with
  | nil =>
    intro _ p hp
    simp only [addTo, List.mem_singleton] at hp
    subst hp
    exact hv
  | cons q rest ih =>
    intro hl p hp
    by_cases h : q.1 = k
    · simp only [addTo, if_pos h] at hp
      rcases List.mem_cons.mp hp with hpq | hpr
      · subst hpq
        exact hP _ _ (hl q (List.mem_cons_self _ _)) hv
      · exact hl p (List.mem_cons_of_mem _ hpr)
    · simp only [addTo, if_neg h] at hp
      rcases List.mem_cons.mp hp with hpq | hpr
      · rw [hpq]
        exact hl q (List.mem_cons_self _ _)
      · exact ih (fun r hr => hl r (List.mem_cons_of_mem _ hr)) p hpr

theorem accAll_pred {P : ℚ → Prop} (hP : ∀ a b, P a → P b → P (a + b)) :
    ∀ (contribs : List (String × ℚ)) (acc : List (String × ℚ)),
      (∀ p ∈ contribs, P p.2) → (∀ p ∈ acc, P p.2) →
      ∀ p ∈ accAll contribs acc, P p.2 := by
  intro contribs
  induction contribs with
  | nil => intro acc _ hacc p hp; exact hacc p (by simpa [accAll] using hp)
  | cons q rest ih =>
    intro acc hc hacc p hp
    simp only [accAll, List.foldl_cons] at hp
    exact ih (addTo q.1 q.2 acc)
      (fun r hr => hc r (by simp [hr]))
      (addTo_pred hP q.1 q.2 (hc q (by simp)) acc hacc) p hp

/-- A key present in the dict stays present under `addTo`. -/
theorem addTo_keys_mono (k : String) (v : ℚ) (l : List (String × ℚ))
    (k' : String) (h : k' ∈ l.map Prod.fst) :
    k' ∈ (addTo k v l).map Prod.fst := by
  induction l with
  | nil => simp at h
  | cons p rest ih =>
    rw [List.map_cons] at h
    rcases List.mem_cons.mp h with hh | hh
    · by_cases hpk : p.1 = k
      · simp only [addTo, if_pos hpk, List.map_cons, List.mem_cons]
        exact Or.inl hh
      · simp only [addTo, if_neg hpk, List.map_cons, List.mem_cons]
        exact Or.inl hh
    · by_cases hpk : p.1 = k
      · simp only [addTo, if_pos hpk, List.map_cons, List.mem_cons]
        exact Or.inr hh
      · simp only [addTo, if_neg hpk, List.map_cons, List.mem_cons]
        exact Or.inr (ih hh)

/-- `addTo` puts its key into the dict. -/
theorem addTo_key_mem (k : String) (v : ℚ) (l : List (String × ℚ)) :
    k ∈ (addTo k v l).map Prod.fst := by
  induction l with
  | nil => simp [addTo]
  | cons p rest ih =>
    by_cases hpk : p.1 = k
    · simp only [addTo, if_pos hpk, List.map_cons, List.mem_cons]
      exact Or.inl hpk.symm
    · simp only [addTo, if_neg hpk, List.map_cons, List.mem_cons]
      exact Or.inr ih

theorem accAll_keys_mono :
    ∀ (contribs : List (String × ℚ)) (acc : List (String × ℚ)) (k : String),
      k ∈ acc.map Prod.fst → k ∈ (accAll contribs acc).map Prod.fst := by
  intro contribs
  induction contribs with
  | nil => intro acc k h; simpa [accAll] using h
  | cons q rest ih =>
    intro acc k h
    simp only [accAll, List.foldl_cons]
    exact ih (addTo q.1 q.2 acc) k (addTo_keys_mono q.1 q.2 acc k h)

/-! ### Inter-state decision (`generate_tally_xml` lines 89–91 and
`TallyBackendService` lines 219/261/320–323). -/

/-- `is_valid_gstin = len(party_gstin) == 15` and
`is_inter_state = is_valid_gstin and party_gstin[:2] != "27"`, for the
already stripped/upper-cased registration number. -/
def isInterState (gstin : String) : Bool :=
  gstin.length == 15 && gstin.take 2 != "27"

theorem isInterState_iff (gstin : String) :
    isInterState gstin = true ↔ (gstin.length = 15 ∧ gstin.take 2 ≠ "27") := by
  simp [isInterState]

/-! ### `generate_tally_xml` voucher accumulation (`tally_service.py`
lines 176–379).  Line items are duck-typed; `float(getattr(...) or d)`
treats `None` and `0` alike as absent. -/

/-- A line item as read by `generate_tally_xml`: `gst_rate`, `qty`, `rate`
(`None` when the attribute is absent). -/
structure LineItem where
  gst_rate : Option ℚ
  qty : Option ℚ
  rate : Option ℚ

/-- Python `float(x or d)`: `None` and `0` both fall back to the default. -/
def pyOr (o : Option ℚ) (d : ℚ) : ℚ :=
  match o with
  | none => d
  | some x => if x = 0 then d else x

/-- `float(getattr(item, 'gst_rate', None) or 18)`. -/
def effGst (i : LineItem) : ℚ := pyOr i.gst_rate 18

/-- `float(getattr(item, 'qty', None) or 1)`. -/
def effQty (i : LineItem) : ℚ := pyOr i.qty 1

/-- `float(getattr(item, 'rate', None) or 0)`. -/
def effRate (i : LineItem) : ℚ := pyOr i.rate 0

/-- `amount = round_val(qty * item_rate)`. -/
def lineAmount (i : LineItem) : ℚ := roundVal (effQty i * effRate i)

/-- `line_tax = round_val(amount * (rate / 100))`. -/
def lineTax (i : LineItem) : ℚ := roundVal (lineAmount i * (effGst i / 100))

/-- Contribution of one line to `purchase_ledger_totals`
(key `f"PURCHASE @{rate_str}"`, value `amount`). -/
def purchContrib (i : LineItem) : String × ℚ :=
  (purchaseName (effGst i), lineAmount i)

/-- Contribution of one line to `tax_ledger_totals`: the full `line_tax`
on the IGST ledger when inter-state, otherwise
`half_tax = round_val(line_tax / 2)` on CGST and
`remainder = round_val(line_tax - half_tax)` on SGST. -/
def taxContribs (inter : Bool) (i : LineItem) : List (String × ℚ) :=
  if inter then [(igstName (effGst i), lineTax i)]
  else
    [(cgstName (effGst i / 2), roundVal (lineTax i / 2)),
     (sgstName (effGst i / 2), roundVal (lineTax i - roundVal (lineTax i / 2)))]

/-- `purchase_ledger_totals` after the item loop. -/
def purchTotals (items : List LineItem) : List (String × ℚ) :=
  accAll (items.map purchContrib) []

/-- `tax_ledger_totals` after the item loop. -/
def taxTotals (inter : Bool) (items : List LineItem) : List (String × ℚ) :=
  accAll ((items.map (taxContribs inter)).flatten) []

/-- `total_voucher_value`: running sum of `amount + line_tax`. -/
def totalVoucherValue (items : List LineItem) : ℚ :=
  (items.map (fun i => lineAmount i + lineTax i)).sum

/-- The party ledger `AMOUNT`: `round_val(total_voucher_value)`. -/
def partyAmount (items : List LineItem) : ℚ := roundVal (totalVoucherValue items)

/-- The purchase-ledger entries: one per bucket, `AMOUNT = -abs(amount)`. -/
def purchEntries (items : List LineItem) : List (String × ℚ) :=
  (purchTotals items).map (fun p => (p.1, -|p.2|))

/-- The tax-ledger entries: `amt = round_val(raw)`, rendered with
`AMOUNT = -abs(amt)` only when `amt > 0`. -/
def taxEntries (inter : Bool) (items : List LineItem) : List (String × ℚ) :=
  (taxTotals inter items).filterMap
    (fun p => if 0 < roundVal p.2 then some (p.1, -|roundVal p.2|) else none)

/-- All signed `AMOUNT` values of one voucher, in rendered order:
party entry first, then purchase buckets, then tax ledgers. -/
def entryAmounts (inter : Bool) (items : List LineItem) : List ℚ :=
  partyAmount items ::
    ((purchEntries items).map Prod.snd ++ (taxEntries inter items).map Prod.snd)

/-! ### `TallyBackendService._generate_vouchers` (lines 308–583). -/

/-- An Excel-import item: `{'amount': float, 'taxRate': float}`
(`item.get("amount", 0)` / `item.get("taxRate", 0)`). -/
structure BItem where
  amount : ℚ
  taxRate : ℚ

/-- `amount = self.round_amount(item.get("amount", 0))`. -/
def bAmount (i : BItem) : ℚ := roundAmount i.amount

/-- `if amount <= 0: continue` — the items that are kept. -/
def bKept (items : List BItem) : List BItem :=
  items.filter (fun i => decide (0 < bAmount i))

/-- Contribution of a kept item to `purchase_ledgers`. -/
def bPurchContrib (i : BItem) : String × ℚ :=
  (purchaseName i.taxRate, bAmount i)

/-- `tax_amount = round_amount(amount * (tax_rate / 100))`, tracked only
when `tax_rate > 0`; inter-state: full amount on IGST, otherwise
`half_tax = round_amount(tax_amount / 2)` on CGST and
`remainder = round_amount(tax_amount - half_tax)` on SGST. -/
def bTaxContribs (inter : Bool) (i : BItem) : List (String × ℚ) :=
  if 0 < i.taxRate then
    let t := roundAmount (bAmount i * (i.taxRate / 100))
    if inter then [(igstName i.taxRate, t)]
    else
      [(cgstName (i.taxRate / 2), roundAmount (t / 2)),
       (sgstName (i.taxRate / 2), roundAmount (t - roundAmount (t / 2)))]
  else []

/-- `purchase_ledgers` after the item loop. -/
def bPurchTotals (items : List BItem) : List (String × ℚ) :=
  accAll ((bKept items).map bPurchContrib) []

/-- `tax_ledgers` after the item loop. -/
def bTaxTotals (inter : Bool) (items : List BItem) : List (String × ℚ) :=
  accAll (((bKept items).map (bTaxContribs inter)).flatten) []

/-- `final_total = round_amount(total_purchase_amount + sum(tax_ledgers.values()))`,
the party entry `AMOUNT` (positive, credit). -/
def bPartyAmount (inter : Bool) (items : List BItem) : ℚ :=
  roundAmount (((bKept items).map bAmount).sum + sumVals (bTaxTotals inter items))

/-- Purchase-ledger entries, `AMOUNT = -abs(amount)`. -/
def bPurchEntries (items : List BItem) : List (String × ℚ) :=
  (bPurchTotals items).map (fun p => (p.1, -|p.2|))

/-- Tax-ledger entries, rendered with `AMOUNT = -abs(tax_amount)` only
when `tax_amount > 0` (no re-rounding here). -/
def bTaxEntries (inter : Bool) (items : List BItem) : List (String × ℚ) :=
  (bTaxTotals inter items).filterMap
    (fun p => if 0 < p.2 then some (p.1, -|p.2|) else none)

/-- All signed `AMOUNT` values of one backend voucher, in rendered order. -/
def bEntryAmounts (inter : Bool) (items : List BItem) : List ℚ :=
  bPartyAmount inter items ::
    ((bPurchEntries items).map Prod.snd ++ (bTaxEntries inter items).map Prod.snd)

/-! ### Balance lemmas. -/

theorem is2dp_listSum : ∀ l : List ℚ, (∀ q ∈ l, is2dp q) → is2dp l.sum := by
  intro l
  induction l with
  | nil => intro _; simpa using is2dp_zero
  | cons q rest ih =>
    intro h
    rw [List.sum_cons]
    exact is2dp_add (h q (List.mem_cons_self _ _))
      (ih fun r hr => h r (List.mem_cons_of_mem _ hr))

theorem sum_map_add {α : Type} (f g : α → ℚ) :
    ∀ l : List α, (l.map fun x => f x + g x).sum = (l.map f).sum + (l.map g).sum := by
  intro l
  induction l with
  | nil => simp
  | cons x rest ih => simp [ih]; ring

/-- Rendering `-abs(value)` over a dict of nonnegative values sums to minus
the dict total. -/
theorem negAbs_map_sum :
    ∀ l : List (String × ℚ), (∀ p ∈ l, 0 ≤ p.2) →
      (((l.map fun p => (p.1, -|p.2|)).map Prod.snd).sum) = -(sumVals l) := by
  intro l
  induction l with
  | nil => simp [sumVals]
  | cons p rest ih =>
    intro h
    have hp : 0 ≤ p.2 := h p (List.mem_cons_self _ _)
    have hrest := ih fun r hr => h r (List.mem_cons_of_mem _ hr)
    simp only [List.map_cons, List.sum_cons, sumVals] at hrest ⊢
    rw [abs_of_nonneg hp, hrest]
    ring

/-- The service tax rendering (`amt = round_val(raw); if amt > 0: -abs(amt)`)
sums to minus the dict total when every raw value is a nonnegative exact
2-decimal value. -/
theorem taxRender_sum :
    ∀ l : List (String × ℚ), (∀ p ∈ l, 0 ≤ p.2 ∧ is2dp p.2) →
      (((l.filterMap fun p =>
          if 0 < roundVal p.2 then some (p.1, -|roundVal p.2|) else none).map
            Prod.snd).sum) = -(sumVals l) := by
  intro l
  induction l with
  | nil => simp [sumVals]
  | cons p rest ih =>
    intro h
    have hp := h p (List.mem_cons_self _ _)
    have hr : roundVal p.2 = p.2 :=
      round2_eq_self (by norm_num) (by norm_num) hp.2
    have hrest := ih fun r hrm => h r (List.mem_cons_of_mem _ hrm)
    by_cases hpos : 0 < roundVal p.2
    · simp only [List.filterMap_cons, if_pos hpos, List.map_cons, List.sum_cons,
        sumVals] at hrest ⊢
      rw [hr] at hpos ⊢
      rw [abs_of_nonneg hp.1, hrest]
      ring
    · have hz : p.2 = 0 := by
        rw [hr] at hpos
        exact le_antisymm (not_lt.mp hpos) hp.1
      simp only [List.filterMap_cons, if_neg hpos, sumVals, List.map_cons,
        List.sum_cons] at hrest ⊢
      rw [hz, hrest]
      simp [sumVals]

/-- The backend tax rendering (`if tax_amount > 0: -abs(tax_amount)`, no
re-rounding) sums to minus the dict total when every value is nonnegative. -/
theorem bTaxRender_sum :
    ∀ l : List (String × ℚ), (∀ p ∈ l, 0 ≤ p.2) →
      (((l.filterMap fun p =>
          if 0 < p.2 then some (p.1, -|p.2|) else none).map Prod.snd).sum) =
        -(sumVals l) := by
  intro l
  induction l with
  | nil => simp [sumVals]
  | cons p rest ih =>
    intro h
    have hp := h p (List.mem_cons_self _ _)
    have hrest := ih fun r hrm => h r (List.mem_cons_of_mem _ hrm)
    by_cases hpos : 0 < p.2
    · simp only [List.filterMap_cons, if_pos hpos, List.map_cons, List.sum_cons,
        sumVals] at hrest ⊢
      rw [abs_of_nonneg hp, hrest]
      ring
    · have hz : p.2 = 0 := le_antisymm (not_lt.mp hpos) hp
      simp only [List.filterMap_cons, if_neg hpos, sumVals, List.map_cons,
        List.sum_cons] at hrest ⊢
      rw [hz, hrest]
      simp [sumVals]

/-- One line's two intra-state tax contributions (CGST half plus SGST
remainder) sum exactly to the line's tax; inter-state it is the line tax
itself. -/
theorem taxContribs_snd_sum (inter : Bool) (i : LineItem) :
    ((taxContribs inter i).map Prod.snd).sum = lineTax i := by
  have hfix : roundVal (lineTax i) = lineTax i :=
    round2_eq_self (by norm_num) (by norm_num) (is2dp_round2 _ _)
  cases inter with
  | true => simp [taxContribs]
  | false =>
    simp only [taxContribs, Bool.false_eq_true, if_false, List.map_cons,
      List.map_nil, List.sum_cons, List.sum_nil, add_zero]
    rw [split_sum (lineTax i), hfix]

theorem lineAmount_nonneg {i : LineItem} (h : 0 ≤ effQty i * effRate i) :
    0 ≤ lineAmount i := round2_nonneg (by norm_num) h

theorem lineTax_nonneg {i : LineItem} (h1 : 0 ≤ effQty i * effRate i)
    (h2 : 0 ≤ effGst i) : 0 ≤ lineTax i :=
  round2_nonneg (by norm_num)
    (mul_nonneg (lineAmount_nonneg h1) (by linarith))

/-- Balance of one `generate_tally_xml` voucher when every line has a
nonnegative `qty * rate` and a nonnegative tax rate: the rendered signed
amounts cancel exactly. -/
theorem balance_service (inter : Bool) (items : List LineItem)
    (h : ∀ i ∈ items, 0 ≤ effQty i * effRate i ∧ 0 ≤ effGst i) :
    (entryAmounts inter items).sum = 0 := by
  have hA : ∀ i ∈ items, 0 ≤ lineAmount i :=
    fun i hi => lineAmount_nonneg (h i hi).1
  have hT : ∀ i ∈ items, 0 ≤ lineTax i :=
    fun i hi => lineTax_nonneg (h i hi).1 (h i hi).2
  -- purchase side
  have hPsum : sumVals (purchTotals items) = (items.map lineAmount).sum := by
    rw [purchTotals, sumVals_accAll]
    simp only [sumVals, List.map_nil, List.sum_nil, zero_add, List.map_map]
    exact congrArg List.sum (List.map_congr_left fun i _ => rfl)
  have hPnn : ∀ p ∈ purchTotals items, 0 ≤ p.2 := by
    refine accAll_pred (fun a b ha hb => add_nonneg ha hb) _ _ ?_ (by simp)
    intro p hp
    rcases List.mem_map.mp hp with ⟨i, hi, rfl⟩
    exact hA i hi
  have hPent : ((purchEntries items).map Prod.snd).sum =
      -(sumVals (purchTotals items)) := negAbs_map_sum _ hPnn
  -- tax side
  have hTcontrib : ∀ p ∈ (items.map (taxContribs inter)).flatten,
      0 ≤ p.2 ∧ is2dp p.2 := by
    intro p hp
    rcases List.mem_flatten.mp hp with ⟨L, hL, hpL⟩
    rcases List.mem_map.mp hL with ⟨i, hi, rfl⟩
    have hti := hT i hi
    cases inter with
    | true =>
      simp only [taxContribs, if_pos] at hpL
      rcases List.mem_singleton.mp hpL with rfl
      exact ⟨hti, is2dp_round2 _ _⟩
    | false =>
      simp only [taxContribs, Bool.false_eq_true, if_false] at hpL
      rcases List.mem_cons.mp hpL with rfl | hpL'
      · exact ⟨round2_nonneg (by norm_num) (by linarith), is2dp_round2 _ _⟩
      · rcases List.mem_singleton.mp hpL' with rfl
        refine ⟨round2_nonneg (by norm_num) ?_, is2dp_round2 _ _⟩
        have hle : roundVal (lineTax i / 2) ≤ lineTax i :=
          round2_half_le (by norm_num) (by norm_num) hti (is2dp_round2 _ _)
        linarith
  have hTvals : ∀ p ∈ taxTotals inter items, 0 ≤ p.2 ∧ is2dp p.2 :=
    accAll_pred (P := fun q => 0 ≤ q ∧ is2dp q)
      (fun _ _ ha hb => ⟨add_nonneg ha.1 hb.1, is2dp_add ha.2 hb.2⟩)
      _ _ hTcontrib (by simp)
  have hTsum : sumVals (taxTotals inter items) = (items.map lineTax).sum := by
    rw [taxTotals, sumVals_accAll]
    simp only [sumVals, List.map_nil, List.sum_nil, zero_add]
    rw [List.map_flatten, List.sum_flatten, List.map_map, List.map_map]
    congr 1
    refine List.map_congr_left ?_
    intro i _
    exact taxContribs_snd_sum inter i
  have hTent : ((taxEntries inter items).map Prod.snd).sum =
      -(sumVals (taxTotals inter items)) := taxRender_sum _ hTvals
  -- party entry
  have hParty : partyAmount items =
      (items.map lineAmount).sum + (items.map lineTax).sum := by
    rw [partyAmount, totalVoucherValue]
    rw [sum_map_add lineAmount lineTax items]
    refine round2_eq_self (by norm_num) (by norm_num) ?_
    refine is2dp_add ?_ ?_ <;>
      · refine is2dp_listSum _ ?_
        intro q hq
        rcases List.mem_map.mp hq with ⟨i, _, rfl⟩
        exact is2dp_round2 _ _
  -- combine
  simp only [entryAmounts, List.sum_cons, List.sum_append]
  rw [hPent, hTent, hPsum, hTsum, hParty]
  ring

theorem bKept_pos : ∀ items : List BItem, ∀ i ∈ bKept items, 0 < bAmount i := by
  intro items i hi
  have := List.of_mem_filter hi
  simpa using this

/-- Balance of one backend `_generate_vouchers` voucher: because
non-positive amounts are skipped and taxes are only tracked for positive
rates, the rendered signed amounts cancel exactly, unconditionally. -/
theorem balance_backend (inter : Bool) (items : List BItem) :
    (bEntryAmounts inter items).sum = 0 := by
  have hA : ∀ i ∈ bKept items, 0 ≤ bAmount i :=
    fun i hi => le_of_lt (bKept_pos items i hi)
  have hPsum : sumVals (bPurchTotals items) = ((bKept items).map bAmount).sum := by
    rw [bPurchTotals, sumVals_accAll]
    simp only [sumVals, List.map_nil, List.sum_nil, zero_add, List.map_map]
    exact congrArg List.sum (List.map_congr_left fun i _ => rfl)
  have hPnn : ∀ p ∈ bPurchTotals items, 0 ≤ p.2 := by
    refine accAll_pred (fun a b ha hb => add_nonneg ha hb) _ _ ?_ (by simp)
    intro p hp
    rcases List.mem_map.mp hp with ⟨i, hi, rfl⟩
    exact hA i hi
  have hPent : ((bPurchEntries items).map Prod.snd).sum =
      -(sumVals (bPurchTotals items)) := negAbs_map_sum _ hPnn
  have hTcontrib : ∀ p ∈ ((bKept items).map (bTaxContribs inter)).flatten,
      0 ≤ p.2 ∧ is2dp p.2 := by
    intro p hp
    rcases List.mem_flatten.mp hp with ⟨L, hL, hpL⟩
    rcases List.mem_map.mp hL with ⟨i, hi, rfl⟩
    by_cases hrate : 0 < i.taxRate
    · have ht0 : 0 ≤ roundAmount (bAmount i * (i.taxRate / 100)) :=
        round2_nonneg (by norm_num)
          (mul_nonneg (hA i hi) (by positivity))
      cases inter with
      | true =>
        simp only [bTaxContribs, if_pos hrate, if_pos] at hpL
        rcases List.mem_singleton.mp hpL with rfl
        exact ⟨ht0, is2dp_round2 _ _⟩
      | false =>
        simp only [bTaxContribs, if_pos hrate, Bool.false_eq_true, if_false] at hpL
        rcases List.mem_cons.mp hpL with rfl | hpL'
        · exact ⟨round2_nonneg (by norm_num) (by linarith), is2dp_round2 _ _⟩
        · rcases List.mem_singleton.mp hpL' with rfl
          refine ⟨round2_nonneg (by norm_num) ?_, is2dp_round2 _ _⟩
          have hle : roundAmount (roundAmount (bAmount i * (i.taxRate / 100)) / 2) ≤
              roundAmount (bAmount i * (i.taxRate / 100)) :=
            round2_half_le (by norm_num) (by norm_num) ht0 (is2dp_round2 _ _)
          linarith
    · simp only [bTaxContribs, if_neg hrate] at hpL
      simp at hpL
  have hTvals : ∀ p ∈ bTaxTotals inter items, 0 ≤ p.2 ∧ is2dp p.2 :=
    accAll_pred (P := fun q => 0 ≤ q ∧ is2dp q)
      (fun _ _ ha hb => ⟨add_nonneg ha.1 hb.1, is2dp_add ha.2 hb.2⟩)
      _ _ hTcontrib (by simp)
  have hTent : ((bTaxEntries inter items).map Prod.snd).sum =
      -(sumVals (bTaxTotals inter items)) :=
    bTaxRender_sum _ fun p hp => (hTvals p hp).1
  have hParty : bPartyAmount inter items =
      ((bKept items).map bAmount).sum + sumVals (bTaxTotals inter items) := by
    rw [bPartyAmount]
    refine round2_eq_self (by norm_num) (by norm_num) ?_
    refine is2dp_add ?_ ?_
    · refine is2dp_listSum _ ?_
      intro q hq
      rcases List.mem_map.mp hq with ⟨i, _, rfl⟩
      exact is2dp_round2 _ _
    · refine is2dp_listSum _ ?_
      intro q hq
      rcases List.mem_map.mp hq with ⟨p, hp, rfl⟩
      exact (hTvals p hp).2
  simp only [bEntryAmounts, List.sum_cons, List.sum_append]
  rw [hPent, hTent, hPsum, hParty]
  ring

/-- C1 (amended): the signed `AMOUNT` values of one voucher cancel exactly
(hence within 0.01) — unconditionally for the backend encoder
`_generate_vouchers` (which skips non-positive amounts), and for
`generate_tally_xml` whenever every line item has a nonnegative
`qty * rate` and a nonnegative tax rate.  (With a negative line,
`generate_tally_xml` breaks the balance: see the counterexample.) -/
theorem claim_C1_balance :
    (∀ (inter : Bool) (items : List LineItem),
        (∀ i ∈ items, 0 ≤ effQty i * effRate i ∧ 0 ≤ effGst i) →
        (entryAmounts inter items).sum = 0) ∧
    (∀ (inter : Bool) (items : List BItem), (bEntryAmounts inter items).sum = 0) :=
  ⟨balance_service, balance_backend⟩

theorem claim_C1_balance_witness :
    (∀ i ∈ [LineItem.mk (some 18) (some 1) (some 100)],
        0 ≤ effQty i * effRate i ∧ 0 ≤ effGst i) ∧
    (entryAmounts false [LineItem.mk (some 18) (some 1) (some 100)]).sum = 0 := by
  have h : ∀ i ∈ [LineItem.mk (some 18) (some 1) (some 100)],
      0 ≤ effQty i * effRate i ∧ 0 ≤ effGst i := by
    intro i hi
    rw [List.mem_singleton] at hi
    subst hi
    constructor <;> norm_num [effQty, effRate, effGst, pyOr]
  exact ⟨h, claim_C1_balance.1 false _ h⟩

/-- C1 counterexample: a single line item with `qty = 1`, `rate = -100`,
`gst_rate = 18` (inter-state).  `generate_tally_xml` renders the party
entry `-118.00` and the purchase entry `-abs(-100) = -100.00`, while the
negative tax total is dropped by the `amt > 0` guard: the amounts sum to
`-218`, not `0` — the claim's balance fails far beyond the 0.01 tolerance. -/
theorem claim_C1_balance_cex :
    ¬ |(entryAmounts true [LineItem.mk (some 18) (some 1) (some (-100))]).sum| ≤
      1/100 := by
  have hq : effQty (LineItem.mk (some 18) (some 1) (some (-100))) = 1 := by
    norm_num [effQty, pyOr]
  have hr : effRate (LineItem.mk (some 18) (some 1) (some (-100))) = -100 := by
    norm_num [effRate, pyOr]
  have hg : effGst (LineItem.mk (some 18) (some 1) (some (-100))) = 18 := by
    norm_num [effGst, pyOr]
  have hA : lineAmount (LineItem.mk (some 18) (some 1) (some (-100))) = -100 := by
    rw [lineAmount, hq, hr]
    norm_num [roundVal, round2]
  have hT : lineTax (LineItem.mk (some 18) (some 1) (some (-100))) = -18 := by
    rw [lineTax, hA, hg]
    norm_num [roundVal, round2]
  simp only [entryAmounts, partyAmount, totalVoucherValue, purchEntries,
    purchTotals, purchContrib, taxEntries, taxTotals, taxContribs, accAll,
    List.map_cons, List.map_nil, List.flatten, List.foldl_cons, List.foldl_nil,
    List.append_nil, addTo, List.filterMap_cons, List.filterMap_nil,
    List.sum_cons, List.sum_nil, hA, hT, if_pos]
  norm_num [addTo, List.filterMap_cons, List.filterMap_nil, roundVal, round2]

/-! ### C2: tax-duty master selection (`generate_tally_xml` lines 140–174). -/

/-- The Create-Tax-Ledgers section of `generate_tally_xml` for one tax-rate
bucket, as `(ledger name, GSTDUTYHEAD, GSTRATE)` triples: skipped entirely
for `rate <= 0`; inter-state emits one Integrated-tax ledger at the full
rate, otherwise a Central + State pair at half rate — each guarded by
membership in `existing_ledgers`. -/
def taxMastersForRate (inter : Bool) (existing : List String) (r : ℚ) :
    List (String × String × ℚ) :=
  if 0 < r then
    if inter then
      if igstName r ∈ existing then [] else [(igstName r, "Integrated Tax", r)]
    else
      (if cgstName (r/2) ∈ existing then []
       else [(cgstName (r/2), "Central Tax", r/2)]) ++
      (if sgstName (r/2) ∈ existing then []
       else [(sgstName (r/2), "State Tax", r/2)])
  else []

/-- C2: for a positive tax-rate bucket, the inter-state flag holds exactly
when the registration number has 15 characters and its first two characters
differ from the home code `"27"`; the rendered tax masters never mix an
Integrated-tax ledger with a Central/State one; and against an empty known
set they are exactly one IGST ledger at the full rate (inter-state) or the
CGST + SGST pair at half rates (every other case). -/
theorem claim_C2_tax_masters (g : String) (r : ℚ) (existing : List String)
    (hr : 0 < r) :
    (isInterState g = true ↔ (g.length = 15 ∧ g.take 2 ≠ "27")) ∧
    (¬ ((∃ p ∈ taxMastersForRate (isInterState g) existing r,
          p.2.1 = "Integrated Tax") ∧
        (∃ p ∈ taxMastersForRate (isInterState g) existing r,
          p.2.1 = "Central Tax" ∨ p.2.1 = "State Tax"))) ∧
    (taxMastersForRate (isInterState g) [] r =
      if g.length = 15 ∧ g.take 2 ≠ "27"
      then [(igstName r, "Integrated Tax", r)]
      else [(cgstName (r/2), "Central Tax", r/2),
            (sgstName (r/2), "State Tax", r/2)]) := by
  refine ⟨isInterState_iff g, ?_, ?_⟩
  · cases hb : isInterState g with
    | true =>
      rintro ⟨⟨p, hp, _⟩, ⟨p', hp', hdut'⟩⟩
      simp only [taxMastersForRate, if_pos hr, if_pos] at hp'
      by_cases hmem : igstName r ∈ existing
      · simp [hmem] at hp'
      · simp only [if_neg hmem, List.mem_singleton] at hp'
        subst hp'
        rcases hdut' with hdut' | hdut' <;> simp at hdut'
    | false =>
      rintro ⟨⟨p, hp, hdut⟩, _⟩
      simp only [taxMastersForRate, if_pos hr, Bool.false_eq_true, if_false,
        List.mem_append] at hp
      rcases hp with hp | hp
      · by_cases hmem : cgstName (r/2) ∈ existing
        · simp [hmem] at hp
        · simp only [if_neg hmem, List.mem_singleton] at hp
          subst hp
          simp at hdut
      · by_cases hmem : sgstName (r/2) ∈ existing
        · simp [hmem] at hp
        · simp only [if_neg hmem, List.mem_singleton] at hp
          subst hp
          simp at hdut
  · cases hb : isInterState g with
    | true =>
      rw [if_pos ((isInterState_iff g).mp hb)]
      simp [taxMastersForRate, if_pos hr]
    | false =>
      have hcond : ¬ (g.length = 15 ∧ g.take 2 ≠ "27") := by
        intro hc
        have hcontra := (isInterState_iff g).mpr hc
        rw [hb] at hcontra
        exact Bool.noConfusion hcontra
      rw [if_neg hcond]
      simp [taxMastersForRate, if_pos hr]

theorem claim_C2_tax_masters_witness :
    (0 : ℚ) < 18 ∧
    ((isInterState "29ABCDE1234F1Z5" = true ↔
        (("29ABCDE1234F1Z5" : String).length = 15 ∧
         ("29ABCDE1234F1Z5" : String).take 2 ≠ "27")) ∧
     (¬ ((∃ p ∈ taxMastersForRate (isInterState "29ABCDE1234F1Z5") [] 18,
           p.2.1 = "Integrated Tax") ∧
         (∃ p ∈ taxMastersForRate (isInterState "29ABCDE1234F1Z5") [] 18,
           p.2.1 = "Central Tax" ∨ p.2.1 = "State Tax"))) ∧
     (taxMastersForRate (isInterState "29ABCDE1234F1Z5") [] 18 =
       if ("29ABCDE1234F1Z5" : String).length = 15 ∧
          ("29ABCDE1234F1Z5" : String).take 2 ≠ "27"
       then [(igstName 18, "Integrated Tax", 18)]
       else [(cgstName (18/2), "Central Tax", 18/2),
             (sgstName (18/2), "State Tax", 18/2)])) :=
  ⟨by norm_num, claim_C2_tax_masters "29ABCDE1234F1Z5" 18 [] (by norm_num)⟩

/-- C3: with the encoder's epsilon-biased 2-decimal rounding
(`round_val`), `half = round_val(tax/2)` plus the subtraction remainder
`round_val(tax - half)` is exactly `round_val(tax)` — for every tax amount,
in particular for 0.01, 10.005, 100.00 and 333.33; the CGST and SGST legs
together reproduce the line's tax with no rounding leakage. -/
theorem claim_C3_split_exact :
    ∀ T : ℚ, roundVal (T / 2) + roundVal (T - roundVal (T / 2)) = roundVal T :=
  split_sum

/-! ### Name sanitation (`tally_service.clean_name` lines 17–23,
`TallyBackendService.clean_name` lines 52–59). -/

/-- Python regex `\s` over the ASCII range: space, tab, newline, carriage
return, vertical tab, form feed. -/
def isPySpace (c : Char) : Bool :=
  c = ' ' || c = '\t' || c = '\n' || c = '\r' ||
  c = Char.ofNat 11 || c = Char.ofNat 12

/-- The character class kept by `re.sub(r'[^a-zA-Z0-9\s\-\.\(\)%]', '', s)`. -/
def allowedChar (c : Char) : Bool :=
  ('a' ≤ c && c ≤ 'z') || ('A' ≤ c && c ≤ 'Z') || ('0' ≤ c && c ≤ '9') ||
  isPySpace c || c = '-' || c = '.' || c = '(' || c = ')' || c = '%'

/-- Python `str.strip()`: drop leading and trailing whitespace. -/
def stripWs (l : List Char) : List Char :=
  ((l.dropWhile fun c => isPySpace c).reverse.dropWhile fun c => isPySpace c).reverse

/-- `re.sub(r'\s+', ' ', s)`: replace each maximal whitespace run by one
space (the flag records whether the previous character was whitespace). -/
def collapseAux : Bool → List Char → List Char
  | _, [] => []
  | prev, c :: cs =>
    if isPySpace c then
      if prev then collapseAux true cs else ' ' :: collapseAux true cs
    else c :: collapseAux false cs

def collapseWs (l : List Char) : List Char := collapseAux false l

/-- `tally_service.clean_name`: falsy input yields the placeholder
`'Unknown Item'`; otherwise strip the disallowed characters, collapse
whitespace, `strip()`, truncate to 50.  NB: when the sanitized result is
empty this returns the empty string, not the placeholder. -/
def cleanNameS (s : String) : String :=
  if s = "" then "Unknown Item"
  else ⟨(stripWs (collapseWs (s.data.filter allowedChar))).take 50⟩

/-- `TallyBackendService.clean_name` (default `max_length = 50`): falsy
input or an empty sanitized result yields `'Unnamed'`; no whitespace
collapsing. -/
def cleanNameB (s : String) : String :=
  if s = "" then "Unnamed"
  else
    let cleaned := stripWs (s.data.filter allowedChar)
    if cleaned = [] then "Unnamed" else ⟨cleaned.take 50⟩

/-! ### Master-creation guards and deduplication (C5):
`generate_tally_xml` lines 104–174 and
`TallyBackendService._generate_masters` lines 212–306. -/

/-- The party-ledger create block of `generate_tally_xml`: emitted only
when the party name is not already known; the set is never extended. -/
def servicePartyMaster (party : String) (existing : List String) : List String :=
  if party ∈ existing then [] else [party]

/-- The purchase-ledger create blocks of `generate_tally_xml` (one per
distinct rate, guarded by membership, no set update). -/
def servicePurchMasters (uniqueRates : List ℚ) (existing : List String) :
    List String :=
  (uniqueRates.map fun r =>
    if purchaseName r ∈ existing then [] else [purchaseName r]).flatten

/-- The tax-ledger create blocks of `generate_tally_xml` (names only). -/
def serviceTaxMasters (inter : Bool) (uniqueRates : List ℚ)
    (existing : List String) : List String :=
  (uniqueRates.map fun r =>
    (taxMastersForRate inter existing r).map Prod.fst).flatten

/-- All ledger-create names emitted by one `generate_tally_xml` call, in
order (party, purchase buckets, tax ledgers). -/
def serviceMasters (party : String) (inter : Bool) (uniqueRates : List ℚ)
    (existing : List String) : List String :=
  servicePartyMaster party existing ++ servicePurchMasters uniqueRates existing ++
    serviceTaxMasters inter uniqueRates existing

/-- One `generate_tally_xml` call as seen by the caller: the emitted create
names together with the caller's set — which the function never mutates. -/
def serviceMastersRun (party : String) (inter : Bool) (uniqueRates : List ℚ)
    (existing : List String) : List String × List String :=
  (serviceMasters party inter uniqueRates existing, existing)

/-- The backend guard-and-add loop: emit a candidate name only when not in
the set, then add it (`created_set.add(...)`). Returns (emitted, final set). -/
def runDedup : List String → List String → List String × List String
  | [], s => ([], s)
  | c :: cs, s =>
    if c ∈ s then runDedup cs s
    else
      let r := runDedup cs (c :: s)
      (c :: r.1, r.2)

/-- An Excel-import voucher as consumed by `_generate_masters` /
`_generate_vouchers`: party name, stripped/upper-cased GSTIN, items. -/
structure BVoucher where
  partyName : String
  gstin : String
  items : List BItem

/-- The candidate master names of one voucher in `_generate_masters`
emission order: party ledger, then per item the purchase bucket and (for a
positive rate) the IGST or CGST/SGST duty ledgers. -/
def bVoucherCandidates (v : BVoucher) : List String :=
  cleanNameB v.partyName ::
    (v.items.map fun i =>
      purchaseName i.taxRate ::
        (taxMastersForRate (isInterState v.gstin) [] i.taxRate).map Prod.fst).flatten

def backendCandidates (vs : List BVoucher) : List String :=
  (vs.map bVoucherCandidates).flatten

/-- `_generate_masters`: fold the candidates through the guard-and-add
loop against the caller-supplied set. -/
def genMastersB (vs : List BVoucher) (s : List String) :
    List String × List String :=
  runDedup (backendCandidates vs) s

theorem runDedup_set_mono :
    ∀ (cs s : List String) (c : String), c ∈ s → c ∈ (runDedup cs s).2 := by
  intro cs
  induction cs with
  | nil => intro s c h; simpa [runDedup] using h
  | cons d cs' ih =>
    intro s c h
    by_cases hd : d ∈ s
    · simpa [runDedup, hd] using ih s c h
    · simp only [runDedup, if_neg hd]
      exact ih (d :: s) c (List.mem_cons_of_mem _ h)

theorem runDedup_emitted_new :
    ∀ (cs s : List String) (c : String), c ∈ (runDedup cs s).1 → c ∉ s := by
  intro cs
  induction cs with
  | nil => intro s c h; simp [runDedup] at h
  | cons d cs' ih =>
    intro s c h
    by_cases hd : d ∈ s
    · exact ih s c (by simpa [runDedup, hd] using h)
    · simp only [runDedup, if_neg hd] at h
      rcases List.mem_cons.mp h with rfl | h'
      · exact hd
      · intro hcs
        exact ih (d :: s) c h' (List.mem_cons_of_mem _ hcs)

theorem runDedup_covers :
    ∀ (cs s : List String) (c : String), c ∈ cs → c ∈ (runDedup cs s).2 := by
  intro cs
  induction cs with
  | nil => intro s c h; simp at h
  | cons d cs' ih =>
    intro s c h
    by_cases hd : d ∈ s
    · simp only [runDedup, if_pos hd]
      rcases List.mem_cons.mp h with rfl | h'
      · exact runDedup_set_mono cs' s c hd
      · exact ih s c h'
    · simp only [runDedup, if_neg hd]
      rcases List.mem_cons.mp h with rfl | h'
      · exact runDedup_set_mono cs' (c :: s) c (List.mem_cons_self _ _)
      · exact ih (d :: s) c h'

theorem runDedup_all_known :
    ∀ (cs s : List String), (∀ c ∈ cs, c ∈ s) → (runDedup cs s).1 = [] := by
  intro cs
  induction cs with
  | nil => intro s _; simp [runDedup]
  | cons d cs' ih =>
    intro s h
    have hd : d ∈ s := h d (List.mem_cons_self _ _)
    simp only [runDedup, if_pos hd]
    exact ih s fun c hc => h c (List.mem_cons_of_mem _ hc)

/-- Tax master names are only emitted when not already known. -/
theorem taxMastersForRate_new (inter : Bool) (existing : List String) (r : ℚ) :
    ∀ p ∈ taxMastersForRate inter existing r, p.1 ∉ existing := by
  intro p hp
  by_cases hr : 0 < r
  · cases inter with
    | true =>
      simp only [taxMastersForRate, if_pos hr, if_pos] at hp
      by_cases hmem : igstName r ∈ existing
      · simp [hmem] at hp
      · rcases List.mem_singleton.mp (by simpa [hmem] using hp) with rfl
        exact hmem
    | false =>
      simp only [taxMastersForRate, if_pos hr, Bool.false_eq_true, if_false,
        List.mem_append] at hp
      rcases hp with hp | hp
      · by_cases hmem : cgstName (r/2) ∈ existing
        · simp [hmem] at hp
        · rcases List.mem_singleton.mp (by simpa [hmem] using hp) with rfl
          exact hmem
      · by_cases hmem : sgstName (r/2) ∈ existing
        · simp [hmem] at hp
        · rcases List.mem_singleton.mp (by simpa [hmem] using hp) with rfl
          exact hmem
  · simp [taxMastersForRate, if_neg hr] at hp

/-- C5 (amended): every create is membership-guarded in both encoders; the
backend `_generate_masters` also adds each emitted name to the set, so a
second encoding of the same batch against the resulting set emits nothing;
`generate_tally_xml` never adds names, so only pre-known names (such as a
party already in the set) are suppressed on re-encoding — see the
counterexample for the duplicate it produces. -/
theorem claim_C5_dedup :
    (∀ (party : String) (inter : Bool) (rates : List ℚ) (existing : List String),
        ∀ n ∈ serviceMasters party inter rates existing, n ∉ existing) ∧
    (∀ (vs : List BVoucher) (s : List String),
        (∀ c ∈ (genMastersB vs s).1, c ∉ s) ∧
        (genMastersB vs (genMastersB vs s).2).1 = []) := by
  constructor
  · intro party inter rates existing n hn
    simp only [serviceMasters, List.mem_append] at hn
    rcases hn with (hn | hn) | hn
    · by_cases hmem : party ∈ existing
      · simp [servicePartyMaster, hmem] at hn
      · rcases List.mem_singleton.mp (by simpa [servicePartyMaster, hmem] using hn)
          with rfl
        exact hmem
    · rw [servicePurchMasters] at hn
      rcases List.mem_flatten.mp hn with ⟨L, hL, hnL⟩
      rcases List.mem_map.mp hL with ⟨r, _, rfl⟩
      by_cases hmem : purchaseName r ∈ existing
      · simp [hmem] at hnL
      · rcases List.mem_singleton.mp (by simpa [hmem] using hnL) with rfl
        exact hmem
    · rw [serviceTaxMasters] at hn
      rcases List.mem_flatten.mp hn with ⟨L, hL, hnL⟩
      rcases List.mem_map.mp hL with ⟨r, _, rfl⟩
      rcases List.mem_map.mp hnL with ⟨p, hp, rfl⟩
      exact taxMastersForRate_new inter existing r p hp
  · intro vs s
    refine ⟨fun c hc => runDedup_emitted_new _ _ c hc, ?_⟩
    exact runDedup_all_known _ _
      fun c hc => runDedup_covers (backendCandidates vs) s c hc

theorem claim_C5_dedup_witness :
    ("Acme" ∈ serviceMasters "Acme" false [] ["Other"]) ∧
    "Acme" ∉ ["Other"] := by
  have hmem : "Acme" ∈ serviceMasters "Acme" false [] ["Other"] := by
    simp [serviceMasters, servicePartyMaster, servicePurchMasters,
      serviceTaxMasters]
  exact ⟨hmem, claim_C5_dedup.1 "Acme" false [] ["Other"] "Acme" hmem⟩

/-- C5 counterexample: `generate_tally_xml` hands the caller's set back
unchanged, so encoding the same record twice against the same set emits the
party-create block both times — the claim's "no second create master"
fails. -/
theorem claim_C5_dedup_cex :
    ("Acme" ∈ (serviceMastersRun "Acme" false [18] []).1) ∧
    ("Acme" ∈ (serviceMastersRun "Acme" false [18]
        (serviceMastersRun "Acme" false [18] []).2).1) := by
  constructor <;>
    simp [serviceMastersRun, serviceMasters, servicePartyMaster]

/-! ### C6: zero-amount and zero-rate line items. -/

theorem accAll_cons (p : String × ℚ) (cs acc : List (String × ℚ)) :
    accAll (p :: cs) acc = accAll cs (addTo p.1 p.2 acc) := rfl

/-- C6 (amended): the backend `_generate_vouchers` skips a line whose
rounded amount is `<= 0` entirely (no bucket, no tax, no entry); a kept
line with tax rate 0 creates its purchase bucket but contributes nothing to
the tax dict.  In `generate_tally_xml` the zero-rate case cannot arise
(`float(... or 18)` coerces a 0 rate to 18), a zero-amount line contributes
no tax, and — contrary to the claim — it is *not* skipped: it still
produces a purchase-bucket entry (see the counterexample). -/
theorem claim_C6_zero_lines :
    (∀ (inter : Bool) (i : BItem) (items : List BItem), bAmount i ≤ 0 →
        bPurchTotals (i :: items) = bPurchTotals items ∧
        bTaxTotals inter (i :: items) = bTaxTotals inter items ∧
        bEntryAmounts inter (i :: items) = bEntryAmounts inter items) ∧
    (∀ (inter : Bool) (i : BItem) (items : List BItem), 0 < bAmount i →
        i.taxRate = 0 →
        purchaseName i.taxRate ∈ (bPurchTotals (i :: items)).map Prod.fst ∧
        bTaxTotals inter (i :: items) = bTaxTotals inter items) ∧
    (∀ i : LineItem, effGst i ≠ 0) ∧
    (∀ i : LineItem, lineAmount i = 0 → lineTax i = 0) := by
  refine ⟨?_, ?_, ?_, ?_⟩
  · intro inter i items hle
    have hnlt : ¬ (0 < bAmount i) := not_lt.mpr hle
    have hK : bKept (i :: items) = bKept items := by
      simp [bKept, List.filter_cons, hnlt]
    refine ⟨?_, ?_, ?_⟩ <;>
      simp only [bPurchTotals, bTaxTotals, bEntryAmounts, bPartyAmount,
        bPurchEntries, bTaxEntries, hK]
  · intro inter i items hpos hrate
    have hK : bKept (i :: items) = i :: bKept items := by
      simp [bKept, List.filter_cons, hpos]
    have hnr : ¬ (0 < i.taxRate) := by rw [hrate]; norm_num
    constructor
    · rw [bPurchTotals, hK, List.map_cons, accAll_cons]
      exact accAll_keys_mono _ _ _ (addTo_key_mem _ _ _)
    · have hc : bTaxContribs inter i = [] := by
        simp [bTaxContribs, if_neg hnr]
      rw [bTaxTotals, bTaxTotals, hK, List.map_cons, hc]
      simp
  · intro i
    rw [effGst]
    cases hgst : i.gst_rate with
    | none => simp [pyOr]
    | some x =>
      by_cases hx : x = 0
      · simp [pyOr, hx]
      · simp [pyOr, hx]
  · intro i h
    rw [lineTax, h, zero_mul]
    norm_num [roundVal, round2]

theorem claim_C6_zero_lines_witness :
    bAmount (BItem.mk 0 18) ≤ 0 ∧
    bEntryAmounts false [BItem.mk 0 18] = bEntryAmounts false [] := by
  have h : bAmount (BItem.mk 0 18) ≤ 0 := by
    norm_num [bAmount, roundAmount, round2]
  exact ⟨h, (claim_C6_zero_lines.1 false (BItem.mk 0 18) [] h).2.2⟩

/-- C6 counterexample: in `generate_tally_xml` a line with `qty = 1`,
`rate = 0` has computed amount 0, yet it is not skipped — it creates a
purchase-bucket entry (rendered with `AMOUNT = -0.00`), contradicting the
claim that a zero-amount line contributes no ledger entry. -/
theorem claim_C6_zero_lines_cex :
    lineAmount (LineItem.mk (some 18) (some 1) (some 0)) = 0 ∧
    purchEntries [LineItem.mk (some 18) (some 1) (some 0)] ≠ [] := by
  constructor
  · norm_num [lineAmount, effQty, effRate, pyOr, roundVal, round2]
  · simp [purchEntries, purchTotals, purchContrib, accAll, addTo]

/-! ### C7: name sanitation. -/

/-- Adjacent characters are never both whitespace: the shape of a
whitespace-collapsed string. -/
def noWsPair (a b : Char) : Prop := ¬ (isPySpace a = true ∧ isPySpace b = true)

theorem collapseAux_true_head :
    ∀ (cs : List Char) (h : Char),
      (collapseAux true cs).head? = some h → isPySpace h = false := by
  intro cs
  induction cs with
  | nil => intro h hh; simp [collapseAux] at hh
  | cons c rest ih =>
    intro h hh
    by_cases hws : isPySpace c = true
    · rw [collapseAux, if_pos hws, if_pos rfl] at hh
      exact ih h hh
    · rw [collapseAux, if_neg hws] at hh
      simp only [List.head?_cons, Option.some_inj] at hh
      subst hh
      simpa using hws

theorem collapseAux_chain :
    ∀ (cs : List Char) (b : Bool), List.Chain' noWsPair (collapseAux b cs) := by
  intro cs
  induction cs with
  | nil => intro b; simp [collapseAux]
  | cons c rest ih =>
    intro b
    by_cases hws : isPySpace c = true
    · cases b with
      | true =>
        rw [collapseAux, if_pos hws, if_pos rfl]
        exact ih true
      | false =>
        rw [collapseAux, if_pos hws, if_neg Bool.false_ne_true]
        rw [List.chain'_cons']
        refine ⟨?_, ih true⟩
        intro y hy
        rw [Option.mem_def] at hy
        have hns := collapseAux_true_head rest y hy
        intro hcon
        rw [hns] at hcon
        exact Bool.noConfusion hcon.2
    · rw [collapseAux, if_neg hws]
      rw [List.chain'_cons']
      refine ⟨?_, ih false⟩
      intro y _ hcon
      exact hws hcon.1

theorem chain_noWs_rev {l : List Char} (h : List.Chain' noWsPair l) :
    List.Chain' noWsPair l.reverse := by
  rw [List.chain'_reverse]
  exact h.imp fun a b hab hc => hab ⟨hc.2, hc.1⟩

theorem stripWs_chain {l : List Char} (h : List.Chain' noWsPair l) :
    List.Chain' noWsPair (stripWs l) := by
  rw [stripWs]
  have h1 : List.Chain' noWsPair (l.dropWhile fun c => isPySpace c) :=
    h.suffix (List.dropWhile_suffix _)
  have h2 := chain_noWs_rev h1
  have h3 : List.Chain' noWsPair
      (((l.dropWhile fun c => isPySpace c).reverse).dropWhile
        fun c => isPySpace c) :=
    h2.suffix (List.dropWhile_suffix _)
  exact chain_noWs_rev h3

theorem mem_stripWs {c : Char} {l : List Char} (h : c ∈ stripWs l) : c ∈ l := by
  rw [stripWs] at h
  have h1 := List.mem_reverse.mp h
  have h2 := (List.dropWhile_suffix (l := (l.dropWhile fun c => isPySpace c).reverse)
    fun c => isPySpace c).subset h1
  have h3 := List.mem_reverse.mp h2
  exact (List.dropWhile_suffix fun c => isPySpace c).subset h3

theorem mem_collapseAux {c : Char} :
    ∀ (l : List Char) (b : Bool), c ∈ collapseAux b l → c ∈ l ∨ c = ' ' := by
  intro l
  induction l with
  | nil => intro b h; simp [collapseAux] at h
  | cons d rest ih =>
    intro b h
    by_cases hws : isPySpace d = true
    · cases b with
      | true =>
        rw [collapseAux, if_pos hws, if_pos rfl] at h
        rcases ih true h with h' | h'
        · exact Or.inl (List.mem_cons_of_mem _ h')
        · exact Or.inr h'
      | false =>
        rw [collapseAux, if_pos hws, if_neg Bool.false_ne_true] at h
        rcases List.mem_cons.mp h with rfl | h'
        · exact Or.inr rfl
        · rcases ih true h' with h'' | h''
          · exact Or.inl (List.mem_cons_of_mem _ h'')
          · exact Or.inr h''
    · rw [collapseAux, if_neg hws] at h
      rcases List.mem_cons.mp h with rfl | h'
      · exact Or.inl (List.mem_cons_self _ _)
      · rcases ih false h' with h'' | h''
        · exact Or.inl (List.mem_cons_of_mem _ h'')
        · exact Or.inr h''

/-- C7 (amended): `tally_service.clean_name` keeps only the allowed
characters, collapses internal whitespace, truncates to 50, and maps absent
(falsy) input to `'Unknown Item'` — but a nonempty input whose sanitized
form is empty yields the empty string, not the placeholder.
`TallyBackendService.clean_name` maps both absent input and an empty
sanitized result to `'Unnamed'`, keeps only the allowed characters and
truncates to 50, but does not collapse internal whitespace. -/
theorem claim_C7_clean_name :
    (∀ s : String,
        (∀ c ∈ (cleanNameS s).data, allowedChar c = true) ∧
        (cleanNameS s).data.length ≤ 50 ∧
        (s = "" → cleanNameS s = "Unknown Item") ∧
        (s ≠ "" → List.Chain' noWsPair (cleanNameS s).data)) ∧
    (∀ s : String,
        (∀ c ∈ (cleanNameB s).data, allowedChar c = true) ∧
        (cleanNameB s).data.length ≤ 50 ∧
        (s = "" → cleanNameB s = "Unnamed") ∧
        (s ≠ "" → stripWs (s.data.filter allowedChar) = [] →
          cleanNameB s = "Unnamed")) := by
  constructor
  · intro s
    by_cases hs : s = ""
    · subst hs
      refine ⟨?_, ?_, fun _ => rfl, fun hne => absurd rfl hne⟩
      · decide
      · decide
    · have hdata : (cleanNameS s).data =
          (stripWs (collapseWs (s.data.filter allowedChar))).take 50 := by
        rw [cleanNameS, if_neg hs]
      refine ⟨?_, ?_, fun he => absurd he hs, fun _ => ?_⟩
      · intro c hc
        rw [hdata] at hc
        have h1 := List.mem_of_mem_take hc
        have h2 := mem_stripWs h1
        rcases mem_collapseAux _ _ h2 with h3 | h3
        · exact (List.mem_filter.mp h3).2
        · subst h3
          decide
      · rw [hdata, List.length_take]
        exact min_le_left _ _
      · rw [hdata]
        exact (stripWs_chain (collapseAux_chain _ _)).take 50
  · intro s
    by_cases hs : s = ""
    · subst hs
      refine ⟨?_, ?_, fun _ => rfl, fun hne _ => absurd rfl hne⟩
      · decide
      · decide
    · by_cases hempty : stripWs (s.data.filter allowedChar) = []
      · have hres : cleanNameB s = "Unnamed" := by
          rw [cleanNameB, if_neg hs]
          simp [hempty]
        refine ⟨?_, ?_, fun he => absurd he hs, fun _ _ => hres⟩
        · rw [hres]
          decide
        · rw [hres]
          decide
      · have hres : (cleanNameB s).data =
            (stripWs (s.data.filter allowedChar)).take 50 := by
          rw [cleanNameB, if_neg hs]
          simp only [if_neg hempty]
        refine ⟨?_, ?_, fun he => absurd he hs, fun _ hc => absurd hc hempty⟩
        · intro c hc
          rw [hres] at hc
          have h1 := List.mem_of_mem_take hc
          have h2 := mem_stripWs h1
          exact (List.mem_filter.mp h2).2
        · rw [hres, List.length_take]
          exact min_le_left _ _

theorem claim_C7_clean_name_witness :
    (("" : String) = "" ∧ cleanNameS "" = "Unknown Item") ∧
    (("" : String) = "" ∧ cleanNameB "" = "Unnamed") :=
  ⟨⟨rfl, (claim_C7_clean_name.1 "").2.2.1 rfl⟩,
   ⟨rfl, (claim_C7_clean_name.2 "").2.2.1 rfl⟩⟩

/-- C7 counterexample: `clean_name("@@@")` in `tally_service` sanitizes to
the empty string and returns it — not the placeholder the claim promises;
and the backend `clean_name` does not collapse internal whitespace
(`"a  b"` keeps its double space). -/
theorem claim_C7_clean_name_cex :
    cleanNameS "@@@" = "" ∧ cleanNameS "@@@" ≠ "Unknown Item" ∧
    cleanNameB "a  b" = "a  b" := by
  refine ⟨?_, ?_, ?_⟩ <;> decide

/-! ### C8 / C10: XML escaping (`tally_service.esc` lines 11–15,
`TallyBackendService.escape_xml` lines 38–50). -/

/-- Python `s.replace(c, r)` for a single-character pattern. -/
def repl (c : Char) (r : List Char) (l : List Char) : List Char :=
  (l.map fun x => if x = c then r else [x]).flatten

/-- The `esc` replace chain: `&` first, then `<`, `>`, `"`, and finally
the apostrophe replaced by a space. -/
def escChainS (l : List Char) : List Char :=
  repl '\'' [' ']
    (repl '"' "&quot;".data
      (repl '>' "&gt;".data
        (repl '<' "&lt;".data
          (repl '&' "&amp;".data l))))

/-- The `escape_xml` replace chain: same order, but the apostrophe becomes
the entity `&apos;`. -/
def escChainB (l : List Char) : List Char :=
  repl '\'' "&apos;".data
    (repl '"' "&quot;".data
      (repl '>' "&gt;".data
        (repl '<' "&lt;".data
          (repl '&' "&amp;".data l))))

/-- Single-pass character substitution equivalent to the `esc` chain. -/
def escCharS (c : Char) : List Char :=
  if c = '&' then "&amp;".data
  else if c = '<' then "&lt;".data
  else if c = '>' then "&gt;".data
  else if c = '"' then "&quot;".data
  else if c = '\'' then [' ']
  else [c]

/-- Single-pass character substitution equivalent to the `escape_xml`
chain. -/
def escCharB (c : Char) : List Char :=
  if c = '&' then "&amp;".data
  else if c = '<' then "&lt;".data
  else if c = '>' then "&gt;".data
  else if c = '"' then "&quot;".data
  else if c = '\'' then "&apos;".data
  else [c]

theorem repl_append (c : Char) (r a b : List Char) :
    repl c r (a ++ b) = repl c r a ++ repl c r b := by
  simp [repl]

theorem escChainS_append (a b : List Char) :
    escChainS (a ++ b) = escChainS a ++ escChainS b := by
  simp [escChainS, repl_append]

theorem escChainB_append (a b : List Char) :
    escChainB (a ++ b) = escChainB a ++ escChainB b := by
  simp [escChainB, repl_append]

theorem escChainS_single (x : Char) : escChainS [x] = escCharS x := by
  by_cases h1 : x = '&'
  · subst h1; decide
  · by_cases h2 : x = '<'
    · subst h2; decide
    · by_cases h3 : x = '>'
      · subst h3; decide
      · by_cases h4 : x = '"'
        · subst h4; decide
        · by_cases h5 : x = '\''
          · subst h5; decide
          · simp [escChainS, repl, escCharS, h1, h2, h3, h4, h5]

theorem escChainB_single (x : Char) : escChainB [x] = escCharB x := by
  by_cases h1 : x = '&'
  · subst h1; decide
  · by_cases h2 : x = '<'
    · subst h2; decide
    · by_cases h3 : x = '>'
      · subst h3; decide
      · by_cases h4 : x = '"'
        · subst h4; decide
        · by_cases h5 : x = '\''
          · subst h5; decide
          · simp [escChainB, repl, escCharB, h1, h2, h3, h4, h5]

/-- C8 (amended): both escaping functions apply ampersand first and then
`<`, `>`, `"`; because the chain starts with the ampersand, the sequential
replaces act as one simultaneous character substitution.  `tally_service.esc`
replaces the apostrophe with a space, while `TallyBackendService.escape_xml`
replaces it with the entity `&apos;` — the two differ exactly there (see
the counterexample). -/
theorem claim_C8_esc_order :
    ∀ l : List Char,
      escChainS l = (l.map escCharS).flatten ∧
      escChainB l = (l.map escCharB).flatten := by
  intro l
  induction l with
  | nil => constructor <;> rfl
  | cons x xs ih =>
    constructor
    · rw [List.map_cons, List.flatten_cons, ← ih.1, ← escChainS_single x,
        ← escChainS_append]
      exact rfl
    · rw [List.map_cons, List.flatten_cons, ← ih.2, ← escChainB_single x,
        ← escChainB_append]
      exact rfl

/-- C8 counterexample: the backend `escape_xml` turns an apostrophe into
the entity `&apos;`, not into a space as the claim states for "the XML
escaping function". -/
theorem claim_C8_esc_order_cex :
    escChainB ['\''] = "&apos;".data ∧ escChainB ['\''] ≠ [' '] := by
  constructor <;> decide

/-- A duck-typed Python value as fed to `esc` (string, number, boolean or
`None`). -/
inductive PyVal where
  | vnone
  | vstr (s : String)
  | vint (n : ℤ)
  | vbool (b : Bool)
  | vfloat (q : ℚ)

/-- Python truthiness: `not text` is true for `None`, `''`, `0` and
`False`. -/
def pyFalsy : PyVal → Bool
  | .vnone => true
  | .vstr s => s == ""
  | .vint n => n == 0
  | .vbool b => !b
  | .vfloat q => q == 0

/-- Python `str(...)` on the non-falsy values `esc` passes on. -/
def pyStr : PyVal → String
  | .vnone => "None"
  | .vstr s => s
  | .vint n => toString n
  | .vbool b => if b then "True" else "False"
  | .vfloat q => toString q.num

/-- `tally_service.esc`: `if not text: return ''`, otherwise `str(text)`
through the replace chain. -/
def esc (v : PyVal) : String :=
  if pyFalsy v then "" else ⟨escChainS (pyStr v).data⟩

/-- C10: every falsy input — `None`, the empty string, the number `0`,
`False` — makes `esc` return the empty string; in particular a numeric zero
renders as empty text, not as `"0"`. -/
theorem claim_C10_esc_falsy :
    (∀ v : PyVal, pyFalsy v = true → esc v = "") ∧
    esc PyVal.vnone = "" ∧ esc (PyVal.vstr "") = "" ∧
    esc (PyVal.vint 0) = "" ∧ esc (PyVal.vbool false) = "" ∧
    esc (PyVal.vint 0) ≠ "0" := by
  refine ⟨?_, ?_, ?_, ?_, ?_, ?_⟩
  · intro v h
    simp [esc, h]
  all_goals decide

theorem claim_C10_esc_falsy_witness :
    pyFalsy (PyVal.vint 0) = true ∧ esc (PyVal.vint 0) = "" :=
  ⟨by decide, claim_C10_esc_falsy.1 (PyVal.vint 0) (by decide)⟩

/-! ### C9: bank-statement vouchers
(`generate_bank_statement_xml`, lines 493–587). -/

/-- Python `s.split(sep)` for a one-character separator (keeps empty
components). -/
def splitC (sep : Char) : List Char → List (List Char)
  | [] => [[]]
  | c :: cs =>
    if c = sep then [] :: splitC sep cs
    else
      match splitC sep cs with
      | [] => [[c]]
      | h :: t => (c :: h) :: t

theorem splitC_ne_nil (sep : Char) : ∀ l : List Char, splitC sep l ≠ [] := by
  intro l
  induction l with
  | nil => simp [splitC]
  | cons c cs ih =>
    by_cases hc : c = sep
    · simp [splitC, hc]
    · rw [splitC, if_neg hc]
      rcases hr : splitC sep cs with _ | ⟨h, t⟩
      · exact absurd hr ih
      · simp

theorem splitC_length (sep : Char) :
    ∀ l : List Char, (splitC sep l).length = l.count sep + 1 := by
  intro l
  induction l with
  | nil => simp [splitC]
  | cons c cs ih =>
    by_cases hc : c = sep
    · rw [splitC, if_pos hc]
      simp [List.count_cons, hc, ih]
    · rw [splitC, if_neg hc]
      rcases hr : splitC sep cs with _ | ⟨h, t⟩
      · exact absurd hr (splitC_ne_nil sep cs)
      · rw [hr] at ih
        simp only [List.length_cons] at ih ⊢
        rw [List.count_cons]
        simp [hc, ih]

theorem splitC_flatten (sep : Char) :
    ∀ l : List Char, (splitC sep l).flatten = l.filter fun c => c != sep := by
  intro l
  induction l with
  | nil => simp [splitC]
  | cons c cs ih =>
    by_cases hc : c = sep
    · rw [splitC, if_pos hc]
      simp [List.filter_cons, hc, ih]
    · rw [splitC, if_neg hc]
      rcases hr : splitC sep cs with _ | ⟨h, t⟩
      · exact absurd hr (splitC_ne_nil sep cs)
      · rw [hr] at ih
        simp only [List.flatten_cons] at ih ⊢
        rw [List.filter_cons]
        simp only [List.cons_append]
        simp [hc, ih]

/-- `formatted_date = "".flatten(date.split("-")) if len(date.split("-")) == 3
else ""` — no fallback to today. -/
def bankDate (s : String) : String :=
  if (splitC '-' s.data).length = 3 then ⟨(splitC '-' s.data).flatten⟩ else ""

/-- One parsed bank transaction (`tx.get(...)` with `or`-defaults). -/
structure BankTx where
  date : String
  txType : Option String
  debit : Option ℚ
  credit : Option ℚ

/-- `txn_type = tx.get("type") or "Payment"`. -/
def effType (tx : BankTx) : String :=
  match tx.txType with
  | none => "Payment"
  | some t => if t = "" then "Payment" else t

/-- `debit = float(tx.get("debit") or 0)`. -/
def effDebit (tx : BankTx) : ℚ := tx.debit.getD 0

/-- `credit = float(tx.get("credit") or 0)`. -/
def effCredit (tx : BankTx) : ℚ := tx.credit.getD 0

/-- The bank-ledger leg amount of one transaction. -/
def bankAmount (tx : BankTx) : ℚ :=
  if effType tx = "Payment" then -|effDebit tx|
  else if effType tx = "Receipt" then |effCredit tx|
  else if effCredit tx ≠ 0 then |effCredit tx| else -|effDebit tx|

/-- The contra-ledger leg amount of one transaction. -/
def contraAmount (tx : BankTx) : ℚ :=
  if effType tx = "Payment" then |effDebit tx|
  else if effType tx = "Receipt" then -|effCredit tx|
  else -(bankAmount tx)

/-- C9: Payment ⇒ bank leg `-|debit|`, contra `+|debit|`; Receipt ⇒ bank
leg `+|credit|`, contra `-|credit|`; Contra ⇒ bank leg `+|credit|` when a
(nonzero) credit is present else `-|debit|`, contra the negation; and the
date renders with separators stripped exactly when the input splits into
three hyphen-separated components, otherwise empty (no fallback date). -/
theorem claim_C9_bank_legs (tx : BankTx) :
    (effType tx = "Payment" →
      bankAmount tx = -|effDebit tx| ∧ contraAmount tx = |effDebit tx|) ∧
    (effType tx = "Receipt" →
      bankAmount tx = |effCredit tx| ∧ contraAmount tx = -|effCredit tx|) ∧
    (effType tx = "Contra" →
      (effCredit tx ≠ 0 → bankAmount tx = |effCredit tx|) ∧
      (effCredit tx = 0 → bankAmount tx = -|effDebit tx|) ∧
      contraAmount tx = -(bankAmount tx)) ∧
    (∀ d : String,
      (d.data.count '-' = 2 → bankDate d = ⟨d.data.filter fun c => c != '-'⟩) ∧
      (d.data.count '-' ≠ 2 → bankDate d = "")) := by
  refine ⟨?_, ?_, ?_, ?_⟩
  · intro h
    rw [bankAmount, contraAmount, h]
    simp
  · intro h
    rw [bankAmount, contraAmount, h]
    have h1 : ("Receipt" : String) ≠ "Payment" := by decide
    rw [if_neg h1, if_neg h1, if_pos rfl, if_pos rfl]
    exact ⟨rfl, rfl⟩
  · intro h
    rw [bankAmount, contraAmount, h]
    have h1 : ("Contra" : String) ≠ "Payment" := by decide
    have h2 : ("Contra" : String) ≠ "Receipt" := by decide
    rw [if_neg h1, if_neg h1, if_neg h2, if_neg h2]
    refine ⟨fun hc => ?_, fun hc => ?_, ?_⟩
    · rw [if_pos hc]
    · rw [if_neg (by simpa using hc)]
    · rw [bankAmount, h, if_neg h1, if_neg h2]
  · intro d
    constructor
    · intro hcount
      rw [bankDate, if_pos (by rw [splitC_length]; omega), splitC_flatten]
    · intro hcount
      rw [bankDate, if_neg (by rw [splitC_length]; omega)]

theorem claim_C9_bank_legs_witness :
    effType (BankTx.mk "2025-01-31" (some "Receipt") none (some 500)) =
      "Receipt" ∧
    bankAmount (BankTx.mk "2025-01-31" (some "Receipt") none (some 500)) =
      |effCredit (BankTx.mk "2025-01-31" (some "Receipt") none (some 500))| ∧
    contraAmount (BankTx.mk "2025-01-31" (some "Receipt") none (some 500)) =
      -|effCredit (BankTx.mk "2025-01-31" (some "Receipt") none (some 500))| := by
  have ht : effType (BankTx.mk "2025-01-31" (some "Receipt") none (some 500)) =
      "Receipt" := by decide
  exact ⟨ht,
    (claim_C9_bank_legs (BankTx.mk "2025-01-31" (some "Receipt") none (some 500))).2.1
      ht⟩

/-! ### C4: push-response interpretation (`tally_service.push_to_tally`,
lines 601–618).  The body is scanned with `re.search`, modelled here by
explicit character-list scans: `<LINEERROR>(.*?)</LINEERROR>` (lazy, `.`
not matching a newline) and `<CREATED>(\d+)</CREATED>` /
`<ERRORS>(\d+)</ERRORS>`. -/

def leOpen : List Char := "<LINEERROR>".data

def leClose : List Char := "</LINEERROR>".data

def crOpen : List Char := "<CREATED>".data

def crClose : List Char := "</CREATED>".data

def erOpen : List Char := "<ERRORS>".data

def erClose : List Char := "</ERRORS>".data

def alOpen : List Char := "<ALTERED>".data

def alClose : List Char := "</ALTERED>".data

def listIsPref : List Char → List Char → Bool
  | [], _ => true
  | _ :: _, [] => false
  | a :: as, b :: bs => a == b && listIsPref as bs

/-- Python `pat in text` (substring containment). -/
def hasSub (pat : List Char) : List Char → Bool
  | [] => listIsPref pat []
  | c :: rest => listIsPref pat (c :: rest) || hasSub pat rest

/-- The lazy group `(.*?)` before a closing tag: the shortest prefix
containing no newline after which the closing tag matches. -/
def grabLazy (close : List Char) : List Char → Option (List Char)
  | [] => none
  | c :: rest =>
    if listIsPref close (c :: rest) then some []
    else if c = '\n' then none
    else (grabLazy close rest).map fun m => c :: m

/-- `re.search(r"<LINEERROR>(.*?)</LINEERROR>", text)`: the first position
where the full pattern matches, with the group's inner text. -/
def findLE : List Char → Option (List Char)
  | [] => none
  | c :: rest =>
    if listIsPref leOpen (c :: rest) then
      match grabLazy leClose ((c :: rest).drop leOpen.length) with
      | some m => some m
      | none => findLE rest
    else findLE rest

def parseDigits (ds : List Char) : ℕ :=
  ds.foldl (fun acc c => acc * 10 + (c.toNat - 48)) 0

/-- `re.search(r"<TAG>(\d+)</TAG>", text)`: first occurrence of the open
tag immediately followed by one or more digits and the closing tag. -/
def findCount (openT closeT : List Char) : List Char → Option ℕ
  | [] => none
  | c :: rest =>
    if listIsPref openT (c :: rest) then
      let after := (c :: rest).drop openT.length
      let ds := after.takeWhile Char.isDigit
      if ds.isEmpty then findCount openT closeT rest
      else if listIsPref closeT (after.drop ds.length) then some (parseDigits ds)
      else findCount openT closeT rest
    else findCount openT closeT rest

/-- The structured result `{"success": ..., "message": ...}`. -/
structure GatewayResult where
  success : Bool
  message : String
deriving DecidableEq

/-- `push_to_tally`'s response interpretation (the body after a successful
POST): `<LINEERROR>` first, then the `<ERRORS>` count, then the
`<CREATED>` count, else "Tally ignored request".  `<ALTERED>` is never
consulted. -/
def pushInterpret (text : String) : GatewayResult :=
  let l := text.data
  if hasSub leOpen l then
    match findLE l with
    | some m => ⟨false, ⟨m⟩⟩
    | none => ⟨false, "Tally Line Error"⟩
  else
    let created := (findCount crOpen crClose l).getD 0
    let errors := (findCount erOpen erClose l).getD 0
    if 0 < errors then ⟨false, "Tally reported " ++ toString errors ++ " errors"⟩
    else if 0 < created then ⟨true, "Created " ++ toString created⟩
    else ⟨false, "Tally ignored request"⟩

/-- The success verdict exactly as the claim words it — reading `<ALTERED>`
alongside `<CREATED>` — kept separate from the code model `pushInterpret`
for comparison. -/
def claimSuccess (text : String) : Bool :=
  let l := text.data
  if hasSub leOpen l then false
  else
    let created := (findCount crOpen crClose l).getD 0
    let altered := (findCount alOpen alClose l).getD 0
    let errors := (findCount erOpen erClose l).getD 0
    if 0 < errors then false
    else decide (0 < created) || decide (0 < altered)

/-- C4 (amended): the result is always a structured value with this
priority: a `<LINEERROR>` match fails with the tag's inner text; otherwise
the integer counts are read from `<CREATED>` and `<ERRORS>` only (absent
tag ⇒ 0, `<ALTERED>` is never read); `errors > 0` fails; `created > 0`
succeeds; otherwise the result is the "Tally ignored request" failure. -/
theorem claim_C4_push (text : String) :
    ((pushInterpret text).success = true ↔
      (hasSub leOpen text.data = false ∧
       (findCount erOpen erClose text.data).getD 0 = 0 ∧
       0 < (findCount crOpen crClose text.data).getD 0)) ∧
    (∀ m : List Char, findLE text.data = some m →
      pushInterpret text = ⟨false, ⟨m⟩⟩) ∧
    (hasSub leOpen text.data = false →
      (findCount erOpen erClose text.data).getD 0 = 0 →
      (findCount crOpen crClose text.data).getD 0 = 0 →
      pushInterpret text = ⟨false, "Tally ignored request"⟩) := by
  have hfindsub : ∀ (l : List Char) (m : List Char), findLE l = some m →
      hasSub leOpen l = true := by
    intro l
    induction l with
    | nil => intro m h; simp [findLE] at h
    | cons c rest ih =>
      intro m h
      by_cases hp : listIsPref leOpen (c :: rest) = true
      · rw [hasSub, hp]
        simp
      · rw [findLE] at h
        rw [if_neg hp] at h
        rw [hasSub]
        rw [ih m h]
        simp
  refine ⟨?_, ?_, ?_⟩
  · by_cases hle : hasSub leOpen text.data = true
    · rcases hfind : findLE text.data with _ | m
      · simp [pushInterpret, hle, hfind]
      · simp [pushInterpret, hle, hfind]
    · have hle' : hasSub leOpen text.data = false := by
        simpa using hle
      by_cases herr : 0 < (findCount erOpen erClose text.data).getD 0
      · simp [pushInterpret, hle', herr]
        omega
      · by_cases hcr : 0 < (findCount crOpen crClose text.data).getD 0
        · simp [pushInterpret, hle', herr, hcr]
          omega
        · simp [pushInterpret, hle', herr, hcr]
  · intro m hfind
    have hle := hfindsub text.data m hfind
    simp [pushInterpret, hle, hfind]
  · intro hle herr hcr
    simp [pushInterpret, hle, herr, hcr]

theorem claim_C4_push_witness :
    (hasSub leOpen ("<CREATED>2</CREATED>" : String).data = false ∧
     (findCount erOpen erClose ("<CREATED>2</CREATED>" : String).data).getD 0 = 0 ∧
     0 < (findCount crOpen crClose ("<CREATED>2</CREATED>" : String).data).getD 0) ∧
    (pushInterpret "<CREATED>2</CREATED>").success = true := by
  have h : hasSub leOpen ("<CREATED>2</CREATED>" : String).data = false ∧
      (findCount erOpen erClose ("<CREATED>2</CREATED>" : String).data).getD 0 = 0 ∧
      0 < (findCount crOpen crClose ("<CREATED>2</CREATED>" : String).data).getD 0 := by
    decide
  exact ⟨h, (claim_C4_push "<CREATED>2</CREATED>").1.mpr h⟩

/-- C4 counterexample: on the body `<ALTERED>2</ALTERED>` the claim's rule
(`created > 0 or altered > 0` ⇒ success) predicts success, but
`push_to_tally` never reads `<ALTERED>` and returns the "ignored"
failure. -/
theorem claim_C4_push_cex :
    claimSuccess "<ALTERED>2</ALTERED>" = true ∧
    (pushInterpret "<ALTERED>2</ALTERED>").success = false := by
  constructor <;> decide

end BackendAi
